import Mathlib

/-!
# Verification of the Garmin import pipeline (`scripts/parse-garmin.js`)
# and the activities read endpoint (`src/app/api/activities/route.ts`)

Shallow embedding of the import/normalization pipeline and the read
endpoint's sort-column resolution.

Modelling conventions:
* A loosely-typed JavaScript numeric field is modelled by `Garmin.JNum`:
  `missing` stands for `null`/`undefined` (absent), `nan` for any value whose
  numeric coercion is NaN, and `num q` for a finite number (JSON numbers are
  always finite, so this covers every value the pipeline reads from the
  export files).
* `Math.round` is round-half-toward-positive-infinity, i.e. `⌊q + 1/2⌋`.
* `new Date(ms).toISOString().slice(0, 10)` is modelled by flooring the
  (truncated-toward-zero) millisecond count to days since the Unix epoch and
  applying the Gregorian civil-from-days algorithm, rendered as a
  zero-padded `YYYY-MM-DD` string (faithful for UTC years 0–9999, which
  covers every representable Garmin timestamp).
* The JavaScript comparator `(a, b) => (a.date < b.date ? 1 : -1)` orders
  by `¬(a.date < b.date)`, where `<` is JS lexicographic code-unit string
  comparison (modelled by `jsStrLt`). It never returns 0, so it is not a
  consistent comparison function and ECMA-262 leaves the tie order
  implementation-defined. `sortNewestFirst` (`List.mergeSort` with that
  relation) models the cache content up to tie order — its date-insensitive
  properties (permutation, descending dates, distinct-date scenarios) are
  shared by any engine result — while `nodeSortPair` models the engine's
  actual behavior on an equal-date pair (V8 reverses it).
-/

namespace Garmin

/-- A JavaScript numeric field value: absent (`null`/`undefined`), a value
coercing to NaN, or a finite number. -/
inductive JNum where
  | missing : JNum
  | nan : JNum
  | num : ℚ → JNum
deriving DecidableEq, Repr

/-- JavaScript `Math.round`: round half toward +∞. -/
def jsRound (q : ℚ) : ℤ := ⌊q + 1/2⌋

/-- JavaScript `ToIntegerOrInfinity` on a finite value: truncate toward zero
(used by the `Date` constructor on a millisecond argument). -/
def jsTrunc (q : ℚ) : ℤ := if 0 ≤ q then ⌊q⌋ else ⌈q⌉

/-- `cmToM` from `parse-garmin.js`: centimeters → meters,
`Math.round(v) / 100`; `null` on absent or NaN input. -/
def cmToM : JNum → JNum
  | .num q => .num ((jsRound q : ℚ) / 100)
  | _ => .missing

/-- `msToSec` from `parse-garmin.js`: milliseconds → seconds,
`Math.round(v / 1000)`; `null` on absent or NaN input. -/
def msToSec : JNum → JNum
  | .num q => .num ((jsRound (q / 1000) : ℚ))
  | _ => .missing

/-- `cmPerMsToKmh` from `parse-garmin.js`: cm/ms → km/h,
`Math.round(v * 36) / 1`; `null` on absent or NaN input. -/
def cmPerMsToKmh : JNum → JNum
  | .num q => .num ((jsRound (q * 36) : ℚ) / 1)
  | _ => .missing

/-- `round` from `parse-garmin.js`: generic decimal rounding,
`Math.round(v * 10^d) / 10^d`; `null` on absent or NaN input. -/
def round : JNum → ℕ → JNum
  | .num q, d => .num ((jsRound (q * 10 ^ d) : ℚ) / 10 ^ d)
  | _, _ => .missing

/-- `toInt` from `parse-garmin.js`: `Math.round(v)`; `null` on absent or
NaN input. -/
def toInt : JNum → JNum
  | .num q => .num ((jsRound q : ℚ))
  | _ => .missing

/-- Decimal digit character. -/
def digitChar (n : ℕ) : Char := Char.ofNat (48 + n % 10)

/-- Two-digit zero-padded decimal rendering (for months and days). -/
def pad2 (n : ℕ) : String := String.mk [digitChar (n / 10), digitChar n]

/-- Four-digit zero-padded decimal rendering (for years 0–9999). -/
def pad4 (n : ℕ) : String :=
  String.mk [digitChar (n / 1000), digitChar (n / 100), digitChar (n / 10), digitChar n]

/-- Gregorian calendar date (year, month, day) of a day count relative to
1970-01-01 (Howard Hinnant's `civil_from_days`). -/
def civilFromDays (z0 : ℤ) : ℤ × ℤ × ℤ :=
  let z := z0 + 719468
  let era := Int.fdiv z 146097
  let doe := z - era * 146097
  let yoe := Int.fdiv (doe - Int.fdiv doe 1460 + Int.fdiv doe 36524 - Int.fdiv doe 146096) 365
  let y := yoe + era * 400
  let doy := doe - (365 * yoe + Int.fdiv yoe 4 - Int.fdiv yoe 100)
  let mp := Int.fdiv (5 * doy + 2) 153
  let d := doy - Int.fdiv (153 * mp + 2) 5 + 1
  let m := mp + (if mp < 10 then 3 else -9)
  (if m ≤ 2 then y + 1 else y, m, d)

/-- `msToDate` from `parse-garmin.js`: epoch milliseconds →
`YYYY-MM-DD` string via `new Date(ms).toISOString().slice(0, 10)` (UTC);
`null` on absent or NaN input. -/
def msToDate : JNum → Option String
  | .num q =>
    let day := Int.fdiv (jsTrunc q) 86400000
    let ymd := civilFromDays day
    some (pad4 ymd.1.toNat ++ "-" ++ pad2 ymd.2.1.toNat ++ "-" ++ pad2 ymd.2.2.toNat)
  | _ => none

/-- A raw Garmin activity record, as read from a `summarizedActivities`
export file. Numeric fields are JSON numbers, `null`, absent, or (to cover
loosely-typed junk) NaN-coercing values; `activityId` is the vendor integer
identifier, possibly absent. -/
structure RawRecord where
  activityId : Option ℤ := none
  beginTimestamp : JNum := .missing
  name : Option String := none
  activityType : Option String := none
  duration : JNum := .missing
  distance : JNum := .missing
  elevationGain : JNum := .missing
  avgSpeed : JNum := .missing
  avgHr : JNum := .missing
  maxHr : JNum := .missing
  calories : JNum := .missing
  avgPower : JNum := .missing
  trainingStressScore : JNum := .missing
  avgTemperature : JNum := .missing
  minTemperature : JNum := .missing
  maxTemperature : JNum := .missing
  startLatitude : JNum := .missing
  startLongitude : JNum := .missing
  locationName : Option String := none
  description : Option String := none
deriving DecidableEq, Repr

/-- The canonical activity shape produced by `normalize`. `date` is always a
present string (the skip guard returns before building the record);
converted numeric fields hold whatever JavaScript value the conversion
helpers produced; `start_lat`/`start_lon` are raw passthrough
(`raw.startLatitude ?? null`). -/
structure CanonicalActivity where
  id : Option ℤ
  date : String
  name : Option String
  activity_type : Option String
  duration_sec : JNum
  distance_m : JNum
  elevation_gain_m : JNum
  avg_speed_kmh : JNum
  avg_hr : JNum
  max_hr : JNum
  calories : JNum
  avg_power : JNum
  tss : JNum
  avg_temperature : JNum
  min_temperature : JNum
  max_temperature : JNum
  start_lat : JNum
  start_lon : JNum
  location_name : Option String
  description : Option String
deriving DecidableEq, Repr

/-- JavaScript `s || null` on a string field: the empty string is falsy and
becomes `null`. -/
def orNull : Option String → Option String
  | some "" => none
  | s => s

/-- `normalize` from `parse-garmin.js`: one raw record → one canonical
activity, or `none` (skip) when the begin timestamp yields no date. -/
def normalize (raw : RawRecord) : Option CanonicalActivity :=
  match msToDate raw.beginTimestamp with
  | none => none
  | some date => some
    { id := raw.activityId
      date := date
      name := orNull raw.name
      activity_type := orNull raw.activityType
      duration_sec := msToSec raw.duration
      distance_m := cmToM raw.distance
      elevation_gain_m := cmToM raw.elevationGain
      avg_speed_kmh := cmPerMsToKmh raw.avgSpeed
      avg_hr := toInt raw.avgHr
      max_hr := toInt raw.maxHr
      calories := toInt raw.calories
      avg_power := toInt raw.avgPower
      tss := round raw.trainingStressScore 1
      avg_temperature := round raw.avgTemperature 1
      min_temperature := round raw.minTemperature 1
      max_temperature := round raw.maxTemperature 1
      start_lat := raw.startLatitude
      start_lon := raw.startLongitude
      location_name := orNull raw.locationName
      description := orNull raw.description }

/-- The deduplication loop from `main` (step 2): walk the merged record
list in order, keeping a record only when its `activityId` has not been
seen before (`seen` plays the role of the JavaScript `Set`). -/
def dedupAux (seen : List (Option ℤ)) : List RawRecord → List RawRecord
  | [] => []
  | r :: rs =>
    if r.activityId ∈ seen then dedupAux seen rs
    else r :: dedupAux (r.activityId :: seen) rs

/-- Deduplicate by `activityId`, keeping the first occurrence. -/
def dedup (l : List RawRecord) : List RawRecord := dedupAux [] l

/-- The normalization loop from `main` (step 3): normalize each record in
order, collecting the canonical records and counting skips. -/
def normalizeStep : List RawRecord → List CanonicalActivity × ℕ
  | [] => ([], 0)
  | r :: rs =>
    let rest := normalizeStep rs
    match normalize r with
    | none => (rest.1, rest.2 + 1)
    | some c => (c :: rest.1, rest.2)

/-- JavaScript string comparison `a < b`: lexicographic on code units
(dates are ASCII digit/dash strings, so code units coincide with the
characters). -/
def jsCharListLt : List Char → List Char → Bool
  | [], [] => false
  | [], _ :: _ => true
  | _ :: _, [] => false
  | a :: as, b :: bs =>
    if a < b then true else if b < a then false else jsCharListLt as bs

/-- JavaScript `a < b` on strings. -/
def jsStrLt (a b : String) : Bool := jsCharListLt a.data b.data

/-- The sort comparator of `main`: `(a, b) => (a.date < b.date ? 1 : -1)`
keeps `a` before `b` exactly when the comparator is nonpositive, i.e. when
`¬(a.date < b.date)`. -/
def dateDescLe (a b : CanonicalActivity) : Bool := !(jsStrLt a.date b.date)

/-- `normalized.sort(...)` from `main`: stable sort, newest date first. -/
def sortNewestFirst (l : List CanonicalActivity) : List CanonicalActivity :=
  l.mergeSort dateDescLe

/-- `CHUNK_SIZE` from `parse-garmin.js`. -/
def CHUNK_SIZE : ℕ := 500

/-- The batch partition of the seeding loop: `normalized.slice(i, i + 500)`
for `i = 0, 500, 1000, …` — consecutive chunks of size `k`, the last one
possibly shorter, preserving order. -/
def chunks (k : ℕ) : List α → List (List α)
  | [] => []
  | a :: t => (a :: t).take k :: chunks k (t.drop (k - 1))
termination_by l => l.length
decreasing_by simp [List.length_drop]; omega

/-- Chunk sizes as a function of the list length alone (matches
`chunks k` when `1 ≤ k`). -/
def chunkSizes (k : ℕ) : ℕ → List ℕ
  | 0 => []
  | n + 1 => min k (n + 1) :: chunkSizes k (n + 1 - max 1 k)
termination_by n => n
decreasing_by omega

/-- The sequential seeding loop from `main`: submit each batch in order; on
the first failed upsert, stop (no later batch is submitted) and record a
fatal (`process.exit(1)`) outcome. Returns the list of batches actually
submitted and whether the run exited zero. -/
def runBatches (ok : List CanonicalActivity → Bool) :
    List (List CanonicalActivity) → List (List CanonicalActivity) × Bool
  | [] => ([], true)
  | b :: bs =>
    if ok b then
      let rest := runBatches ok bs
      (b :: rest.1, rest.2)
    else ([b], false)

/-- The remote-store configuration read from the environment:
`SUPABASE_URL` and `SUPABASE_SERVICE_KEY`, each possibly unset. -/
structure UpsertConfig where
  supabaseUrl : Option String
  serviceKey : Option String

/-- JavaScript falsiness of an environment string: unset or empty. -/
def envFalsy : Option String → Bool
  | none => true
  | some "" => true
  | some _ => false

/-- Observable outcome of the tail of `main` (steps 5–7 of the pipeline,
after normalization): the content written to the local cache, the upsert
calls issued, whether seeding was reported as skipped, and whether the
process exits zero. -/
structure SeedOutcome where
  cacheWritten : List CanonicalActivity
  batchesIssued : List (List CanonicalActivity)
  seedSkipped : Bool
  exitZero : Bool
deriving DecidableEq, Repr

/-- The tail of `main`: sort newest-first, write the local cache, then seed
the remote store only when both credentials are truthy
(`if (!SUPABASE_URL || !SUPABASE_SERVICE_KEY) … return`). The upsert
outcome for a given batch is abstracted as the oracle `ok`. -/
def mainTail (cfg : UpsertConfig) (ok : List CanonicalActivity → Bool)
    (normalized : List CanonicalActivity) : SeedOutcome :=
  let sorted := sortNewestFirst normalized
  if envFalsy cfg.supabaseUrl || envFalsy cfg.serviceKey then
    { cacheWritten := sorted, batchesIssued := [], seedSkipped := true, exitZero := true }
  else
    let res := runBatches ok (chunks CHUNK_SIZE sorted)
    { cacheWritten := sorted, batchesIssued := res.1, seedSkipped := false, exitZero := res.2 }

/-- A canonical activity with a given date and every optional field
absent (used to build concrete test data). -/
def blankCan (d : String) : CanonicalActivity :=
  { id := none, date := d, name := none, activity_type := none
    duration_sec := .missing, distance_m := .missing, elevation_gain_m := .missing
    avg_speed_kmh := .missing, avg_hr := .missing, max_hr := .missing
    calories := .missing, avg_power := .missing, tss := .missing
    avg_temperature := .missing, min_temperature := .missing, max_temperature := .missing
    start_lat := .missing, start_lon := .missing, location_name := none, description := none }

/-- The raw record of the end-to-end scenario (the "Prag" run). -/
def r42 : RawRecord :=
  { activityId := some 42, beginTimestamp := .num 1336550700000
    distance := .num 834400, duration := .num 2945000 }

/-- The canonical record `normalize` produces from `r42`. -/
def c42 : CanonicalActivity :=
  { blankCan "2012-05-09" with
    id := some 42, duration_sec := .num 2945, distance_m := .num 8344 }

/-- First record with identifier 1 (dedup scenario, field value "A first"). -/
def recA1 : RawRecord :=
  { activityId := some 1, beginTimestamp := .num 0, name := some "A first" }

/-- Record with identifier 2 (dedup scenario). -/
def recB : RawRecord := { activityId := some 2, beginTimestamp := .num 0 }

/-- Second record with identifier 1 (dedup scenario, field value
"A second"; must be discarded). -/
def recA2 : RawRecord :=
  { activityId := some 1, beginTimestamp := .num 0, name := some "A second" }

/-- Record with identifier 3 (dedup scenario). -/
def recC : RawRecord := { activityId := some 3, beginTimestamp := .num 0 }

/-- A raw record with a valid timestamp but a NaN-coercing
`startLatitude`. -/
def nanLatRec : RawRecord := { beginTimestamp := .num 0, startLatitude := .nan }

/-- The canonical record `normalize` produces from `nanLatRec`: its
`start_lat` is the raw NaN, passed through unconverted. -/
def cNanLat : CanonicalActivity := { blankCan "1970-01-01" with start_lat := .nan }

/-- A raw record with no timestamp (normalization must skip it). -/
def noTsRec : RawRecord := { activityId := some 7 }

/-- First raw record lacking an `activityId`, with a valid timestamp. -/
def noId1 : RawRecord := { beginTimestamp := .num 0 }

/-- Second raw record lacking an `activityId`. -/
def noId2 : RawRecord := { beginTimestamp := .num 86400000 }

/-- Canonical record produced from `noId1`: its `id` is absent. -/
def cNoId : CanonicalActivity := blankCan "1970-01-01"

/-- Sort-scenario record dated 2020-01-01. -/
def can2020 : CanonicalActivity := blankCan "2020-01-01"

/-- Sort-scenario record dated 2021-06-15. -/
def can2021 : CanonicalActivity := blankCan "2021-06-15"

/-- Sort-scenario record dated 2019-12-31. -/
def can2019 : CanonicalActivity := blankCan "2019-12-31"

/-- A batch-failure oracle that rejects exactly the batch `[can2021]`. -/
def failOn2021 (b : List CanonicalActivity) : Bool := !(b == [can2021])

/-- Modelled from the runtime semantics of `normalized.sort(...)`: the
script's comparator `(a, b) => (a.date < b.date ? 1 : -1)` never returns
0, so it is not a consistent comparison function and ECMA-262 leaves the
sort order implementation-defined. Node's V8 TimSort starts by scanning
the initial run and reverses it when the second element compares negative
against the first (`compare(a[1], a[0]) < 0`), which for a two-element
array determines the whole result: `[x, y]` stays put exactly when
`compare(y, x) = 1`, i.e. `y.date < x.date`, and is reversed otherwise —
in particular an equal-date pair comes out reversed, not in prior
order. -/
def nodeSortPair (x y : CanonicalActivity) : List CanonicalActivity :=
  if jsStrLt y.date x.date then [x, y] else [y, x]

/-- First of two distinct records sharing the date 2020-01-01. -/
def tie2020a : CanonicalActivity := { blankCan "2020-01-01" with name := some "first" }

/-- Second of two distinct records sharing the date 2020-01-01. -/
def tie2020b : CanonicalActivity := { blankCan "2020-01-01" with name := some "second" }

end Garmin

namespace ActivitiesRoute

/-- The `SORTABLE` allow-list from `src/app/api/activities/route.ts`. -/
def SORTABLE : List String :=
  ["date", "distance_m", "elevation_gain_m", "duration_sec",
   "avg_hr", "calories", "avg_power", "tss",
   "avg_temperature", "min_temperature", "max_temperature"]

/-- Sort-column resolution from the `GET` handler: the `sortBy` query
parameter defaults to `"date"` when absent, and any value outside the
allow-list falls back to `"date"`
(`SORTABLE.includes(sortBy) ? sortBy : 'date'`). -/
def resolveSortColumn (sortByParam : Option String) : String :=
  let sortBy := sortByParam.getD "date"
  if sortBy ∈ SORTABLE then sortBy else "date"

end ActivitiesRoute

/-! ## Helper lemmas -/

namespace Garmin

theorem dedupAux_sublist : ∀ (seen : List (Option ℤ)) (l : List RawRecord),
    (dedupAux seen l).Sublist l
  | _, [] => List.Sublist.refl []
  | seen, r :: rs => by
    rw [dedupAux]
    split
    · exact (dedupAux_sublist seen rs).cons r
    · exact (dedupAux_sublist _ rs).cons₂ r

theorem dedupAux_ids_nodup_and_disjoint :
    ∀ (seen : List (Option ℤ)) (l : List RawRecord),
      ((dedupAux seen l).map (fun r => r.activityId)).Nodup ∧
      ∀ x ∈ (dedupAux seen l).map (fun r => r.activityId), x ∉ seen
  | _, [] => by simp [dedupAux]
  | seen, r :: rs => by
    rw [dedupAux]
    split
    · exact dedupAux_ids_nodup_and_disjoint seen rs
    · rename_i h
      obtain ⟨ih1, ih2⟩ := dedupAux_ids_nodup_and_disjoint (r.activityId :: seen) rs
      refine ⟨?_, ?_⟩
      · simp only [List.map_cons, List.nodup_cons]
        exact ⟨fun hx => (ih2 _ hx) (List.mem_cons_self _ _), ih1⟩
      · intro x hx
        simp only [List.map_cons, List.mem_cons] at hx
        rcases hx with rfl | hx
        · exact h
        · exact fun hxs => (ih2 x hx) (List.mem_cons_of_mem _ hxs)

theorem dedupAux_find? :
    ∀ (seen : List (Option ℤ)) (l : List RawRecord) (k : Option ℤ), k ∉ seen →
      (dedupAux seen l).find? (fun r => r.activityId == k) =
        l.find? (fun r => r.activityId == k)
  | _, [], _, _ => rfl
  | seen, r :: rs, k, hk => by
    rw [dedupAux]
    split
    · rename_i hmem
      have hne : (r.activityId == k) = false := by
        rw [beq_eq_false_iff_ne]
        rintro rfl
        exact hk hmem
      rw [List.find?_cons]
      simp only [hne]
      exact dedupAux_find? seen rs k hk
    · rename_i hmem
      rw [List.find?_cons, List.find?_cons]
      cases hrk : (r.activityId == k) with
      | true => simp only [hrk]
      | false =>
        simp only [hrk]
        refine dedupAux_find? _ rs k ?_
        simp only [List.mem_cons]
        rintro (rfl | hks)
        · rw [beq_self_eq_true] at hrk
          exact absurd hrk (by simp)
        · exact hk hks

theorem filter_length_le_one_of_map_nodup {α β : Type _} [BEq β] [LawfulBEq β]
    (l : List α) (f : α → β) (h : (l.map f).Nodup) (k : β) :
    (l.filter (fun x => f x == k)).length ≤ 1 := by
  induction l with
  | nil => simp
  | cons a t ih =>
    simp only [List.map_cons, List.nodup_cons] at h
    obtain ⟨ha, ht⟩ := h
    by_cases hak : (f a == k) = true
    · rw [List.filter_cons, if_pos hak]
      have hnil : t.filter (fun x => f x == k) = [] := by
        rw [List.filter_eq_nil_iff]
        intro x hx hpx
        apply ha
        have h1 : f x = k := by simpa using hpx
        have h2 : f a = k := by simpa using hak
        rw [h2, ← h1]
        exact List.mem_map_of_mem f hx
      simp [hnil]
    · rw [List.filter_cons, if_neg hak]
      exact ih ht

theorem filter_eq_toList_find?_of_length_le_one {α : Type _} (p : α → Bool) :
    ∀ l : List α, (l.filter p).length ≤ 1 → l.filter p = (l.find? p).toList := by
  intro l
  induction l with
  | nil => intro _; rfl
  | cons a t ih =>
    intro h
    by_cases hp : p a = true
    · rw [List.filter_cons, if_pos hp] at h ⊢
      rw [List.find?_cons]
      simp only [hp]
      have hnil : t.filter p = [] := List.length_eq_zero.mp (by simpa using h)
      simp [hnil, Option.toList]
    · rw [List.filter_cons, if_neg hp] at h ⊢
      rw [List.find?_cons]
      simp only [Bool.eq_false_iff.mpr hp]
      exact ih h

end Garmin

/-! ## Claim theorems -/

namespace Garmin

/-- **C2.** Deduplication returns the ordered subsequence containing, for
each distinct activity identifier, exactly the first record bearing that
identifier: the result is a sublist of the input, its identifiers are
pairwise distinct, the record kept for any identifier is exactly the first
record of the input bearing it (so later records are discarded entirely,
never merged), and identifiers `[A, B, A, C]` yield `[A, B, C]` with the
first A's field values. -/
theorem dedup_first_occurrence_wins :
    (∀ l : List RawRecord, (dedup l).Sublist l) ∧
    (∀ l : List RawRecord, ((dedup l).map (fun r => r.activityId)).Nodup) ∧
    (∀ (l : List RawRecord) (k : Option ℤ),
      (dedup l).find? (fun r => r.activityId == k) =
        l.find? (fun r => r.activityId == k)) ∧
    dedup [recA1, recB, recA2, recC] = [recA1, recB, recC] := by
  refine ⟨fun l => dedupAux_sublist [] l,
    fun l => (dedupAux_ids_nodup_and_disjoint [] l).1,
    fun l k => dedupAux_find? [] l k (List.not_mem_nil k),
    by decide⟩

end Garmin

namespace Garmin

theorem normalize_id_eq {r : RawRecord} {c : CanonicalActivity}
    (h : normalize r = some c) : c.id = r.activityId := by
  unfold normalize at h
  cases hd : msToDate r.beginTimestamp with
  | none => rw [hd] at h; exact absurd h (by simp)
  | some d =>
    rw [hd] at h
    cases h
    rfl

theorem normalize_eq_none_iff (r : RawRecord) :
    normalize r = none ↔
      r.beginTimestamp = JNum.missing ∨ r.beginTimestamp = JNum.nan := by
  unfold normalize
  cases r.beginTimestamp <;> simp [msToDate]

theorem normalizeStep_fst : ∀ l : List RawRecord,
    (normalizeStep l).1 = l.filterMap normalize
  | [] => rfl
  | r :: rs => by
    rw [normalizeStep, List.filterMap_cons]
    cases h : normalize r <;> simp [h, normalizeStep_fst rs]

theorem normalizeStep_snd : ∀ l : List RawRecord,
    (normalizeStep l).2 = (l.filter (fun r => (normalize r).isNone)).length
  | [] => rfl
  | r :: rs => by
    rw [normalizeStep, List.filter_cons]
    cases h : normalize r <;> simp [h, normalizeStep_snd rs]

theorem normalizeStep_length : ∀ l : List RawRecord,
    (normalizeStep l).1.length + (normalizeStep l).2 = l.length
  | [] => rfl
  | r :: rs => by
    have ih := normalizeStep_length rs
    rw [normalizeStep]
    cases h : normalize r <;> simp only [h, List.length_cons] <;> omega

theorem cmToM_ne_nan (v : JNum) : cmToM v ≠ JNum.nan := by
  cases v <;> simp [cmToM]

theorem msToSec_ne_nan (v : JNum) : msToSec v ≠ JNum.nan := by
  cases v <;> simp [msToSec]

theorem cmPerMsToKmh_ne_nan (v : JNum) : cmPerMsToKmh v ≠ JNum.nan := by
  cases v <;> simp [cmPerMsToKmh]

theorem toInt_ne_nan (v : JNum) : toInt v ≠ JNum.nan := by
  cases v <;> simp [toInt]

theorem round_ne_nan (v : JNum) (d : ℕ) : round v d ≠ JNum.nan := by
  cases v <;> simp [round]

/-- **C3.** Normalization skip policy: a record is skipped exactly when its
start timestamp is absent or NaN; skipped records never appear in the
normalized output (which is the `filterMap` of `normalize`), the skip
count is exactly the number of skipped records, and normalized count plus
skip count equals the deduplicated input count. -/
theorem normalize_skip_policy :
    (∀ r : RawRecord,
      (normalize r = none ↔
        r.beginTimestamp = JNum.missing ∨ r.beginTimestamp = JNum.nan)) ∧
    (∀ l : List RawRecord, (normalizeStep l).1 = l.filterMap normalize) ∧
    (∀ l : List RawRecord,
      (normalizeStep l).2 = (l.filter (fun r => (normalize r).isNone)).length) ∧
    (∀ l : List RawRecord,
      (normalizeStep l).1.length + (normalizeStep l).2 = l.length) :=
  ⟨normalize_eq_none_iff, normalizeStep_fst, normalizeStep_snd, normalizeStep_length⟩

/-- **C10.** Deduplication keys on the raw `activityId` even when it is
absent: at most one record lacking an identifier survives deduplication,
it is the first such record of the input, and when it normalizes
successfully the canonical record's `id` is absent rather than the record
being rejected. -/
theorem dedup_absent_id (l : List RawRecord) (r : RawRecord)
    (c : CanonicalActivity) (hid : r.activityId = none)
    (hn : normalize r = some c) :
    ((dedup l).filter (fun x => x.activityId == (none : Option ℤ))).length ≤ 1 ∧
    (dedup l).find? (fun x => x.activityId == (none : Option ℤ)) =
      l.find? (fun x => x.activityId == (none : Option ℤ)) ∧
    c.id = none := by
  refine ⟨?_, ?_, ?_⟩
  · exact filter_length_le_one_of_map_nodup (dedup l) (fun x => x.activityId)
      (dedupAux_ids_nodup_and_disjoint [] l).1 none
  · exact dedupAux_find? [] l none (List.not_mem_nil _)
  · rw [normalize_id_eq hn, hid]

/-- Witness for `dedup_absent_id` at a concrete input: two identifier-less
records, of which only the first survives, and its canonical form has an
absent `id`. -/
theorem dedup_absent_id_witness :
    ((dedup [noId1, noId2]).filter
      (fun x => x.activityId == (none : Option ℤ))).length ≤ 1 ∧
    (dedup [noId1, noId2]).find? (fun x => x.activityId == (none : Option ℤ)) =
      [noId1, noId2].find? (fun x => x.activityId == (none : Option ℤ)) ∧
    cNoId.id = none :=
  dedup_absent_id [noId1, noId2] noId1 cNoId rfl (by decide)

end Garmin

namespace Garmin

theorem normalize_r42_eq : normalize r42 = some c42 := by
  have hd : msToDate r42.beginTimestamp = some "2012-05-09" := by decide
  unfold normalize
  rw [hd]
  simp only [r42, c42, blankCan, Option.some.injEq]
  norm_num [msToSec, cmToM, cmPerMsToKmh, toInt, Garmin.round, orNull, jsRound, msToDate]

/-- **C4 counterexample.** The claim "every numeric field of a normalized
record, including `start_lat`/`start_lon`, is finite or absent — never
NaN" is false: `start_lat` is raw passthrough (`raw.startLatitude ?? null`
performs no NaN check), so a raw record with a valid timestamp and a
NaN-coercing `startLatitude` normalizes to a canonical record whose
`start_lat` is NaN. -/
theorem normalize_start_lat_nan_counterexample :
    ¬ (∀ (r : RawRecord) (c : CanonicalActivity),
        normalize r = some c → c.start_lat ≠ JNum.nan) := by
  intro h
  exact h nanLatRec cNanLat (by decide) (by decide)

/-- **C4 (amended).** For every raw record that normalizes successfully,
the date is present (it is exactly the calendar date computed from the
start timestamp), every *converted* numeric field (`duration_sec`,
`distance_m`, `elevation_gain_m`, `avg_speed_kmh`, `avg_hr`, `max_hr`,
`calories`, `avg_power`, `tss`, `avg_temperature`, `min_temperature`,
`max_temperature`) is a finite value or absent — never NaN — and
`start_lat`/`start_lon` are the raw coordinate values passed through
unconverted (so they are absent when the raw field is absent, but inherit
whatever non-finite value the raw field held). -/
theorem normalize_invariants (r : RawRecord) (c : CanonicalActivity)
    (h : normalize r = some c) :
    msToDate r.beginTimestamp = some c.date ∧
    c.duration_sec ≠ JNum.nan ∧ c.distance_m ≠ JNum.nan ∧
    c.elevation_gain_m ≠ JNum.nan ∧ c.avg_speed_kmh ≠ JNum.nan ∧
    c.avg_hr ≠ JNum.nan ∧ c.max_hr ≠ JNum.nan ∧ c.calories ≠ JNum.nan ∧
    c.avg_power ≠ JNum.nan ∧ c.tss ≠ JNum.nan ∧
    c.avg_temperature ≠ JNum.nan ∧ c.min_temperature ≠ JNum.nan ∧
    c.max_temperature ≠ JNum.nan ∧
    c.start_lat = r.startLatitude ∧ c.start_lon = r.startLongitude := by
  unfold normalize at h
  cases hd : msToDate r.beginTimestamp with
  | none => rw [hd] at h; exact absurd h (by simp)
  | some d =>
    rw [hd] at h
    cases h
    exact ⟨rfl, msToSec_ne_nan _, cmToM_ne_nan _, cmToM_ne_nan _,
      cmPerMsToKmh_ne_nan _, toInt_ne_nan _, toInt_ne_nan _, toInt_ne_nan _,
      toInt_ne_nan _, round_ne_nan _ _, round_ne_nan _ _, round_ne_nan _ _,
      round_ne_nan _ _, rfl, rfl⟩

/-- Witness for `normalize_invariants` at the concrete record `r42`. -/
theorem normalize_invariants_witness :
    msToDate r42.beginTimestamp = some c42.date ∧
    c42.duration_sec ≠ JNum.nan ∧ c42.distance_m ≠ JNum.nan ∧
    c42.elevation_gain_m ≠ JNum.nan ∧ c42.avg_speed_kmh ≠ JNum.nan ∧
    c42.avg_hr ≠ JNum.nan ∧ c42.max_hr ≠ JNum.nan ∧ c42.calories ≠ JNum.nan ∧
    c42.avg_power ≠ JNum.nan ∧ c42.tss ≠ JNum.nan ∧
    c42.avg_temperature ≠ JNum.nan ∧ c42.min_temperature ≠ JNum.nan ∧
    c42.max_temperature ≠ JNum.nan ∧
    c42.start_lat = r42.startLatitude ∧ c42.start_lon = r42.startLongitude :=
  normalize_invariants r42 c42 normalize_r42_eq

/-- **C5.** The speed conversion maps a valid cm/ms value `v` to
`round(v * 36)`, an integer-valued rational; it maps 100 cm/ms to exactly
3600 km/h and absent or NaN input to absent output. It does *not* round to
2 decimals the way the generic helper would: at `v = 0.1` cm/ms the
conversion yields 4, while 2-decimal rounding of `0.1 * 36` yields 3.6. -/
theorem cmPerMsToKmh_spec :
    (∀ q : ℚ, cmPerMsToKmh (.num q) = .num ((jsRound (q * 36) : ℚ))) ∧
    (∀ q : ℚ, ∃ n : ℤ, cmPerMsToKmh (.num q) = .num ((n : ℚ))) ∧
    cmPerMsToKmh (.num 100) = .num 3600 ∧
    cmPerMsToKmh .missing = .missing ∧
    cmPerMsToKmh .nan = .missing ∧
    cmPerMsToKmh (.num (1/10)) = .num 4 ∧
    round (.num (1/10 * 36)) 2 = .num (36/10) := by
  refine ⟨fun q => by simp [cmPerMsToKmh], fun q => ⟨jsRound (q * 36), by simp [cmPerMsToKmh]⟩,
    by norm_num [cmPerMsToKmh, jsRound], rfl, rfl,
    by norm_num [cmPerMsToKmh, jsRound], by norm_num [Garmin.round, jsRound]⟩

end Garmin

namespace Garmin

theorem jsCharListLt_irrefl : ∀ x, jsCharListLt x x = false
  | [] => rfl
  | a :: as => by simp [jsCharListLt, jsCharListLt_irrefl as]

theorem jsCharListLt_asymm : ∀ x y, jsCharListLt x y = true → jsCharListLt y x = false
  | [], [] => by simp [jsCharListLt]
  | [], _ :: _ => by simp [jsCharListLt]
  | _ :: _, [] => by simp [jsCharListLt]
  | a :: as, b :: bs => by
    intro h
    simp only [jsCharListLt] at h ⊢
    by_cases hab : a < b
    · rw [if_neg (lt_asymm hab), if_pos hab]
    · by_cases hba : b < a
      · rw [if_neg hab, if_pos hba] at h
        exact absurd h (by simp)
      · rw [if_neg hab, if_neg hba] at h
        rw [if_neg hba, if_neg hab]
        exact jsCharListLt_asymm as bs h

theorem jsCharListLt_false_trans : ∀ x y z, jsCharListLt x y = false →
    jsCharListLt y z = false → jsCharListLt x z = false
  | x, _, [] => by intro _ _; cases x <;> rfl
  | x, [], _ :: _ => by
    intro h1 h2
    cases x <;> exact absurd h2 (by simp [jsCharListLt])
  | [], _ :: _, _ :: _ => by
    intro h1 _
    exact absurd h1 (by simp [jsCharListLt])
  | a :: as, b :: bs, c :: cs => by
    intro h1 h2
    simp only [jsCharListLt] at h1 h2 ⊢
    by_cases hab : a < b
    · rw [if_pos hab] at h1
      exact absurd h1 (by simp)
    · by_cases hbc : b < c
      · rw [if_pos hbc] at h2
        exact absurd h2 (by simp)
      · rw [if_neg hab] at h1
        rw [if_neg hbc] at h2
        have hac : ¬ a < c := not_lt.mpr ((not_lt.mp hbc).trans (not_lt.mp hab))
        rw [if_neg hac]
        by_cases hca : c < a
        · rw [if_pos hca]
        · rw [if_neg hca]
          have heq : a = c := le_antisymm (not_lt.mp hca) (not_lt.mp hac)
          have h1' : ¬ b < a := not_lt.mpr (heq ▸ not_lt.mp hbc)
          have h2' : ¬ c < b := not_lt.mpr (heq ▸ not_lt.mp hab)
          rw [if_neg h1'] at h1
          rw [if_neg h2'] at h2
          exact jsCharListLt_false_trans as bs cs h1 h2

theorem dateDescLe_trans (a b c : CanonicalActivity) :
    dateDescLe a b → dateDescLe b c → dateDescLe a c := by
  simp only [dateDescLe, jsStrLt, Bool.not_eq_true']
  exact jsCharListLt_false_trans a.date.data b.date.data c.date.data

theorem dateDescLe_total (a b : CanonicalActivity) :
    dateDescLe a b || dateDescLe b a := by
  simp only [dateDescLe, jsStrLt, Bool.or_eq_true, Bool.not_eq_true']
  by_cases h : jsCharListLt a.date.data b.date.data = true
  · exact Or.inr (jsCharListLt_asymm _ _ h)
  · exact Or.inl (Bool.not_eq_true _ ▸ h)

/-- **C6 counterexample.** The claim "records of equal date are kept
stably in their prior order" fails on the program: the comparator
`(a, b) => (a.date < b.date ? 1 : -1)` never returns 0, so ECMA-262
leaves the tie order implementation-defined, and Node's V8 classifies an
equal-date pair as a descending run and reverses it (`nodeSortPair`): two
distinct records both dated 2020-01-01 come out in reversed order. -/
theorem sort_tie_stability_counterexample :
    ¬ (∀ x y : CanonicalActivity, x.date = y.date →
        nodeSortPair x y = [x, y]) :=
  fun h => absurd (h tie2020a tie2020b rfl) (by decide)

/-- **C6 (amended).** The canonical set written to the local cache is a
permutation of the normalized set arranged by date descending (in the
result no record is followed by one with a JS-string-greater date), and
records dated 2020-01-01, 2021-06-15, 2019-12-31 are written in the order
2021-06-15, 2020-01-01, 2019-12-31; but the relative order of equal-date
records is implementation-defined rather than stable — on Node's engine
an equal-date pair is reversed. -/
theorem sort_date_descending :
    (∀ l : List CanonicalActivity, (sortNewestFirst l).Perm l) ∧
    (∀ l : List CanonicalActivity,
      (sortNewestFirst l).Pairwise (fun a b => jsStrLt a.date b.date = false)) ∧
    (∀ x y : CanonicalActivity, x.date = y.date → nodeSortPair x y = [y, x]) ∧
    sortNewestFirst [can2020, can2021, can2019] = [can2021, can2020, can2019] := by
  refine ⟨fun l => List.mergeSort_perm l dateDescLe, fun l => ?_, fun x y hxy => ?_, ?_⟩
  · have h := List.sorted_mergeSort dateDescLe_trans dateDescLe_total l
    exact h.imp (fun hab => by simpa [dateDescLe, Bool.not_eq_true'] using hab)
  · rw [nodeSortPair, ← hxy, jsStrLt]
    simp [jsCharListLt_irrefl]
  · haveI : IsAntisymm CanonicalActivity (fun a b => jsStrLt b.date a.date = true) :=
      ⟨fun a b h1 h2 => by
        simp only [jsStrLt] at h1 h2
        have h3 := jsCharListLt_asymm _ _ h1
        rw [h2] at h3
        exact absurd h3 (by simp)⟩
    have hp1 : (sortNewestFirst [can2020, can2021, can2019]).Pairwise
        (fun a b => dateDescLe a b = true) :=
      List.sorted_mergeSort dateDescLe_trans dateDescLe_total _
    have hnd : (sortNewestFirst [can2020, can2021, can2019]).Nodup :=
      ((List.mergeSort_perm _ dateDescLe).nodup_iff).mpr (by decide)
    have hstrict : (sortNewestFirst [can2020, can2021, can2019]).Pairwise
        (fun a b => jsStrLt b.date a.date = true) := by
      refine (hp1.and hnd).imp_of_mem (fun ha hb hab => ?_)
      have ha' := List.mem_mergeSort.mp ha
      have hb' := List.mem_mergeSort.mp hb
      revert hab
      fin_cases ha' <;> fin_cases hb' <;> decide
    have hstrict2 : ([can2021, can2020, can2019] :
        List CanonicalActivity).Pairwise (fun a b => jsStrLt b.date a.date = true) := by
      decide
    exact List.eq_of_perm_of_sorted
      ((List.mergeSort_perm _ dateDescLe).trans (List.Perm.swap can2021 can2020 [can2019]))
      hstrict hstrict2

/-- Witness for `sort_date_descending` at concrete inputs: the equal-date
pair `tie2020a`, `tie2020b` is reversed by the engine's pair sort, and
the three-distinct-date scenario sorts descending. -/
theorem sort_date_descending_witness :
    nodeSortPair tie2020a tie2020b = [tie2020b, tie2020a] ∧
    sortNewestFirst [can2020, can2021, can2019] = [can2021, can2020, can2019] :=
  ⟨sort_date_descending.2.2.1 tie2020a tie2020b rfl, sort_date_descending.2.2.2⟩

end Garmin

namespace Garmin

theorem chunks_join (k : ℕ) : ∀ l : List CanonicalActivity,
    (chunks (k + 1) l).flatten = l
  | [] => by rw [chunks]; rfl
  | a :: t => by
    rw [chunks, List.flatten_cons, chunks_join k (t.drop (k + 1 - 1))]
    simp [List.take_succ_cons, Nat.add_sub_cancel]
termination_by l => l.length
decreasing_by simp [List.length_drop]; omega

theorem chunks_sizes (k : ℕ) : ∀ l : List CanonicalActivity,
    ∀ b ∈ chunks (k + 1) l, b ≠ [] ∧ b.length ≤ k + 1
  | [] => by simp [chunks]
  | a :: t => by
    rw [chunks]
    intro b hb
    rcases List.mem_cons.mp hb with rfl | hb
    · refine ⟨by simp [List.take_succ_cons], ?_⟩
      rw [List.length_take]
      exact min_le_left _ _
    · exact chunks_sizes k (t.drop (k + 1 - 1)) b hb
termination_by l => l.length
decreasing_by simp [List.length_drop]; omega

theorem chunks_map_length (k : ℕ) : ∀ l : List CanonicalActivity,
    (chunks (k + 1) l).map List.length = chunkSizes (k + 1) l.length
  | [] => by simp [chunks, chunkSizes]
  | a :: t => by
    rw [chunks, List.map_cons, chunks_map_length k (t.drop (k + 1 - 1))]
    rw [List.length_cons, chunkSizes]
    have h1 : (List.take (k + 1) (a :: t)).length = min (k + 1) (t.length + 1) := by
      rw [List.length_take, List.length_cons]
    have h2 : (t.drop (k + 1 - 1)).length = t.length + 1 - max 1 (k + 1) := by
      simp only [List.length_drop]
      omega
    rw [h1, h2]
termination_by l => l.length
decreasing_by simp [List.length_drop]; omega

theorem runBatches_all_ok (ok : List CanonicalActivity → Bool) :
    ∀ bs : List (List CanonicalActivity),
      (∀ b ∈ bs, ok b = true) → runBatches ok bs = (bs, true)
  | [] => fun _ => rfl
  | b :: bs => fun h => by
    rw [runBatches, if_pos (h b (List.mem_cons_self _ _)),
      runBatches_all_ok ok bs (fun x hx => h x (List.mem_cons_of_mem _ hx))]

theorem runBatches_fail_at (ok : List CanonicalActivity → Bool) :
    ∀ (bs : List (List CanonicalActivity)) (i : ℕ) (hi : i < bs.length),
      (∀ j, (hj : j < i) → ok (bs.get ⟨j, lt_trans hj hi⟩) = true) →
      ok (bs.get ⟨i, hi⟩) = false →
      runBatches ok bs = (bs.take (i + 1), false)
  | [], i, hi => absurd hi (by simp)
  | b :: bs, 0, hi => fun _ hfail => by
    rw [runBatches, if_neg (by simpa using hfail)]
    rfl
  | b :: bs, i + 1, hi => fun hpre hfail => by
    have hb : ok b = true := hpre 0 (Nat.succ_pos i)
    rw [runBatches, if_pos hb]
    have ih := runBatches_fail_at ok bs i (Nat.lt_of_succ_lt_succ hi)
      (fun j hj => hpre (j + 1) (Nat.succ_lt_succ hj)) hfail
    rw [ih]
    rfl

/-- **C1.** The remote upsert step partitions the canonical set into
consecutive batches of 500 preserving order (their concatenation is the
set itself, every batch is nonempty with at most 500 records, and a
1,200-record set yields sizes [500, 500, 200]); batches are submitted
sequentially, all of them when every upsert succeeds, and when the
`(i+1)`-st call is the first to fail the submitted batches are exactly the
first `i+1` (no later batch is called, the first `i` remain committed) and
the run records a non-zero exit. -/
theorem batch_upsert_protocol :
    (∀ l : List CanonicalActivity, (chunks CHUNK_SIZE l).flatten = l) ∧
    (∀ l : List CanonicalActivity, ∀ b ∈ chunks CHUNK_SIZE l,
      b ≠ [] ∧ b.length ≤ CHUNK_SIZE) ∧
    (∀ l : List CanonicalActivity, l.length = 1200 →
      (chunks CHUNK_SIZE l).map List.length = [500, 500, 200]) ∧
    (∀ (ok : List CanonicalActivity → Bool) (bs : List (List CanonicalActivity)),
      (∀ b ∈ bs, ok b = true) → runBatches ok bs = (bs, true)) ∧
    (∀ (ok : List CanonicalActivity → Bool) (bs : List (List CanonicalActivity))
      (i : ℕ) (hi : i < bs.length),
      (∀ j, (hj : j < i) → ok (bs.get ⟨j, lt_trans hj hi⟩) = true) →
      ok (bs.get ⟨i, hi⟩) = false →
      runBatches ok bs = (bs.take (i + 1), false)) := by
  refine ⟨chunks_join 499, chunks_sizes 499, fun l hl => ?_, runBatches_all_ok,
    runBatches_fail_at⟩
  rw [show CHUNK_SIZE = 499 + 1 from rfl, chunks_map_length 499, hl]
  rw [show (1200 : ℕ) = 1199 + 1 from rfl, chunkSizes]
  norm_num
  rw [show (700 : ℕ) = 699 + 1 from rfl, chunkSizes]
  norm_num
  rw [show (200 : ℕ) = 199 + 1 from rfl, chunkSizes]
  norm_num
  simp [chunkSizes]

/-- Witness for `batch_upsert_protocol` at concrete inputs: a replicated
1,200-record set chunks into sizes [500, 500, 200]; chunk membership on a
one-record set; and with three one-record batches whose second upsert
fails, exactly the first two batches are submitted and the run fails. -/
theorem batch_upsert_protocol_witness :
    (chunks CHUNK_SIZE (List.replicate 1200 can2020)).map List.length =
      [500, 500, 200] ∧
    ([can2020] ≠ [] ∧ [can2020].length ≤ CHUNK_SIZE) ∧
    runBatches failOn2021 [[can2020], [can2021], [can2019]] =
      ([[can2020], [can2021]], false) := by
  refine ⟨batch_upsert_protocol.2.2.1 _ (List.length_replicate 1200 can2020), ?_, ?_⟩
  · exact batch_upsert_protocol.2.1 [can2020] [can2020] (by
      rw [show CHUNK_SIZE = 499 + 1 from rfl, chunks]
      exact List.mem_cons_self _ _)
  · have h := batch_upsert_protocol.2.2.2.2 failOn2021
      [[can2020], [can2021], [can2019]] 1 (by norm_num)
      (fun j hj => by
        have hj0 : j = 0 := by omega
        subst hj0
        exact (by decide : failOn2021 [can2020] = true))
      (by exact (by decide : failOn2021 [can2021] = false))
    simpa using h

end Garmin

namespace Garmin

/-- **C7.** The local cache write always happens (the cache content is the
sorted canonical set regardless of configuration), and when the store
endpoint URL or the service credential is missing (or empty, which
JavaScript treats as falsy) the run issues zero upsert calls, reports
seeding as skipped, and exits zero — credential absence is a valid
configuration, not an error. -/
theorem local_cache_always_written :
    (∀ (cfg : UpsertConfig) (ok : List CanonicalActivity → Bool)
      (l : List CanonicalActivity),
      (mainTail cfg ok l).cacheWritten = sortNewestFirst l) ∧
    (∀ (cfg : UpsertConfig) (ok : List CanonicalActivity → Bool)
      (l : List CanonicalActivity),
      (envFalsy cfg.supabaseUrl || envFalsy cfg.serviceKey) = true →
      (mainTail cfg ok l).batchesIssued = [] ∧
      (mainTail cfg ok l).seedSkipped = true ∧
      (mainTail cfg ok l).exitZero = true) := by
  constructor
  · intro cfg ok l
    unfold mainTail
    split <;> rfl
  · intro cfg ok l h
    unfold mainTail
    rw [if_pos h]
    exact ⟨rfl, rfl, rfl⟩

/-- Witness for `local_cache_always_written` at a concrete configuration
with no endpoint URL. -/
theorem local_cache_always_written_witness :
    (mainTail ⟨none, some "service-key"⟩ failOn2021 [can2020]).batchesIssued = [] ∧
    (mainTail ⟨none, some "service-key"⟩ failOn2021 [can2020]).seedSkipped = true ∧
    (mainTail ⟨none, some "service-key"⟩ failOn2021 [can2020]).exitZero = true :=
  local_cache_always_written.2 ⟨none, some "service-key"⟩ failOn2021 [can2020] rfl

end Garmin

namespace ActivitiesRoute

/-- **C9.** Sort-column resolution of the activities read endpoint: a
requested column in the allow-list is used as given; a column outside the
allow-list silently falls back to `date` (as does an absent parameter)
rather than rejecting the request. -/
theorem sort_column_allow_list (s : String) :
    (s ∈ SORTABLE → resolveSortColumn (some s) = s) ∧
    (s ∉ SORTABLE → resolveSortColumn (some s) = "date") ∧
    resolveSortColumn none = "date" := by
  refine ⟨fun h => ?_, fun h => ?_, rfl⟩
  · unfold resolveSortColumn
    simp [h]
  · unfold resolveSortColumn
    simp [h]

/-- Witness for `sort_column_allow_list`: `calories` is sortable and used
as given; `avg_speed_kmh` is a real column but not in the allow-list, so
it falls back to `date`. -/
theorem sort_column_allow_list_witness :
    resolveSortColumn (some "calories") = "calories" ∧
    resolveSortColumn (some "avg_speed_kmh") = "date" ∧
    resolveSortColumn none = "date" :=
  ⟨(sort_column_allow_list "calories").1 (by decide),
   (sort_column_allow_list "avg_speed_kmh").2.1 (by decide),
   (sort_column_allow_list "avg_speed_kmh").2.2⟩

end ActivitiesRoute

namespace Garmin

theorem find?_append_cons {α : Type _} (p : α → Bool) (r : α) :
    ∀ (pre post : List α), (∀ x ∈ pre, p x = false) → p r = true →
      (pre ++ r :: post).find? p = some r
  | [], _, _, hr => by rw [List.nil_append, List.find?_cons, hr]
  | a :: pre, post, h, hr => by
    rw [List.cons_append, List.find?_cons, h a (List.mem_cons_self _ _)]
    exact find?_append_cons p r pre post (fun x hx => h x (List.mem_cons_of_mem _ hx)) hr

theorem filterMap_normalize_filter_id (k : Option ℤ) :
    ∀ m : List RawRecord,
      (m.filterMap normalize).filter (fun c => c.id == k) =
        (m.filter (fun x => x.activityId == k)).filterMap normalize
  | [] => rfl
  | x :: xs => by
    have ih := filterMap_normalize_filter_id k xs
    cases hn : normalize x with
    | none =>
      cases hid : (x.activityId == k) with
      | false =>
        simp only [List.filterMap_cons, List.filter_cons, hn, hid]
        simpa using ih
      | true =>
        simp only [List.filterMap_cons, List.filter_cons, hn, hid]
        simp only [if_pos trivial, List.filterMap_cons, hn]
        simpa using ih
    | some c =>
      have hcid : c.id = x.activityId := normalize_id_eq hn
      cases hid : (x.activityId == k) with
      | false =>
        simp only [List.filterMap_cons, List.filter_cons, hn, hcid, hid]
        simpa using ih
      | true =>
        simp only [List.filterMap_cons, List.filter_cons, hn, hcid, hid]
        simp only [if_pos trivial, List.filterMap_cons, hn]
        simpa using ih

/-- **C8.** End-to-end scenario: when the merged source set contains the
raw record `{activityId: 42, beginTimestamp: 1336550700000, distance:
834400, duration: 2945000}` exactly once among records whose identifiers
are never 42, the normalized output contains exactly one record with id
42, and that record has date "2012-05-09" (UTC calendar-date truncation),
distance_m 8344 and duration_sec 2945. -/
theorem end_to_end_record42 (pre post : List RawRecord)
    (hpre : ∀ x ∈ pre, x.activityId ≠ some 42)
    (hpost : ∀ x ∈ post, x.activityId ≠ some 42) :
    (normalizeStep (dedup (pre ++ r42 :: post))).1.filter
      (fun c => c.id == (some 42 : Option ℤ)) = [c42] ∧
    c42.date = "2012-05-09" ∧ c42.distance_m = .num 8344 ∧
    c42.duration_sec = .num 2945 := by
  refine ⟨?_, rfl, rfl, rfl⟩
  set l := pre ++ r42 :: post with hl
  rw [normalizeStep_fst, filterMap_normalize_filter_id]
  have hle1 : ((dedup l).filter (fun x => x.activityId == (some 42 : Option ℤ))).length ≤ 1 :=
    filter_length_le_one_of_map_nodup (dedup l) (fun r => r.activityId)
      (dedupAux_ids_nodup_and_disjoint [] l).1 (some 42)
  rw [filter_eq_toList_find?_of_length_le_one _ _ hle1]
  rw [show dedup l = dedupAux [] l from rfl]
  rw [dedupAux_find? [] l (some 42) (List.not_mem_nil _)]
  rw [hl, find?_append_cons _ r42 pre post
    (fun x hx => beq_eq_false_iff_ne.mpr (hpre x hx)) (by decide)]
  rw [Option.toList_some, List.filterMap_cons, normalize_r42_eq]
  rfl

/-- Witness for `end_to_end_record42` with one other record on each
side. -/
theorem end_to_end_record42_witness :
    (normalizeStep (dedup ([recB] ++ r42 :: [recC]))).1.filter
      (fun c => c.id == (some 42 : Option ℤ)) = [c42] ∧
    c42.date = "2012-05-09" ∧ c42.distance_m = .num 8344 ∧
    c42.duration_sec = .num 2945 :=
  end_to_end_record42 [recB] [recC] (by decide) (by decide)

end Garmin
